import Mathlib

/-!
Verification of the `publish:azure:pull-request` scaffolder action
(`src/workspaces/azure-devops/plugins/scaffolder-backend-module-azure-devops/src/actions/devopsPullRequest.ts`).

The TypeScript handler is a sequential workflow against an Azure DevOps git
client.  We embed it shallowly: the external collaborators (credentials
provider, git REST client, directory serializer, `resolveSafeChildPath`) are
fields of an `Env` record; the handler becomes a pure function from the
environment, the invocation context and the action input to a `RunResult`
holding the thrown-or-ok outcome, the emitted outputs, and the ordered trace
of remote git calls.

Node's `path` module functions used by the source (`path.isAbsolute`,
`path.relative`, `path.posix.join`, `path.basename`) are embedded with POSIX
semantics, which is what the backend runs with; `path.relative` resolves
against the process working directory, which we pass explicitly as `cwd`.
JavaScript truthiness on optional strings (`!token`, `!targetBranchName`,
`sourcePath ? _ : _`, `commitMessage || _`) treats the empty string like
`undefined`; we model an optional string as `Option String` and truthiness
as `jsStr · ≠ ""`.
-/

/-! ## JavaScript string truthiness -/

/-- An optional JS string collapsed for truthiness tests: `undefined` and a
present value are distinguished by `Option`, and JS falsiness of a string
(`undefined` or `""`) corresponds to `jsStr o = ""`. -/
def jsStr (o : Option String) : String := o.getD ""

/-! ## Node `path` (POSIX) semantics

String splitting and joining are re-implemented by structural recursion on
the character list (rather than through the library's `String.split` and
`String.intercalate`) so that every definition evaluates inside the kernel;
they compute the same functions.
-/

/-- Split a character list on `'/'` (semantics of `String.split (· == '/')`:
`"" ↦ [""]`, separators at the ends produce empty segments). -/
def splitCharsOnSlash : List Char → List String
  | [] => [""]
  | c :: rest =>
    let r := splitCharsOnSlash rest
    if c = '/' then "" :: r
    else
      match r with
      | [] => [String.mk [c]]
      | s :: ss => String.mk (c :: s.data) :: ss

/-- Split a string on `'/'`. -/
def splitSlash (s : String) : List String := splitCharsOnSlash s.data

/-- Join strings with a separator (semantics of `String.intercalate`). -/
def joinWith (sep : String) : List String → String
  | [] => ""
  | [s] => s
  | s :: rest => s ++ sep ++ joinWith sep rest

/-- `path.posix.isAbsolute` / `path.isAbsolute` on a POSIX backend: the path
starts with `'/'`. -/
def posixIsAbsolute (p : String) : Bool :=
  match p.data with
  | c :: _ => c == '/'
  | [] => false

/-- Whether a string ends with `'/'`. -/
def endsWithSlash (p : String) : Bool := p.data.getLast? == some '/'

/-- Segment normalization shared by Node's `normalizeString`: drops empty and
`"."` segments, resolves `".."` against the accumulated stack, and keeps
leading `".."`s only when `allowAboveRoot` is set (relative paths). -/
def normSegs (allowAboveRoot : Bool) : List String → List String → List String
  | [], acc => acc.reverse
  | s :: rest, acc =>
    if s = "" ∨ s = "." then normSegs allowAboveRoot rest acc
    else if s = ".." then
      match acc with
      | t :: acc' =>
        if t = ".." then normSegs allowAboveRoot rest (s :: t :: acc')
        else normSegs allowAboveRoot rest acc'
      | [] =>
        if allowAboveRoot then normSegs allowAboveRoot rest [s]
        else normSegs allowAboveRoot rest []
    else normSegs allowAboveRoot rest (s :: acc)

/-- `path.posix.normalize`. -/
def posixNormalize (p : String) : String :=
  if p = "" then "." else
  let isAbs := posixIsAbsolute p
  let trailing := endsWithSlash p
  let segs := normSegs (!isAbs) (splitSlash p) []
  let body := joinWith "/" segs
  if body = "" then
    if isAbs then "/" else if trailing then "./" else "."
  else
    let body' := if trailing then body ++ "/" else body
    if isAbs then "/" ++ body' else body'

/-- `path.posix.join`: non-empty parts joined with `/`, then normalized;
no parts at all yields `"."`. -/
def posixJoin (parts : List String) : String :=
  let joined := joinWith "/" (parts.filter (· ≠ ""))
  if joined = "" then "." else posixNormalize joined

/-- `path.posix.resolve` of a single path against the process working
directory `cwd` (which Node guarantees to be absolute). -/
def posixResolve (cwd p : String) : String :=
  let full := if posixIsAbsolute p then p else cwd ++ "/" ++ p
  let isAbs := posixIsAbsolute full
  let body := joinWith "/" (normSegs (!isAbs) (splitSlash full) [])
  if isAbs then (if body = "" then "/" else "/" ++ body)
  else (if body = "" then "." else body)

/-- The non-empty `/`-separated segments of a path. -/
def pathSegs (p : String) : List String :=
  (splitSlash p).filter (· ≠ "")

/-- Length of the longest common prefix of two segment lists. -/
def commonLen : List String → List String → Nat
  | a :: as, b :: bs => if a = b then commonLen as bs + 1 else 0
  | _, _ => 0

/-- `path.posix.relative from to` (Node), with the process working directory
passed explicitly: both arguments are resolved to normalized absolute paths,
the common segment prefix is dropped, and each remaining `from` segment
becomes a `".."`. -/
def pathRelative (cwd f t : String) : String :=
  if f = t then "" else
  let rf := posixResolve cwd f
  let rt := posixResolve cwd t
  if rf = rt then "" else
  let fs := pathSegs rf
  let ts := pathSegs rt
  let common := commonLen fs ts
  joinWith "/" (List.replicate (fs.length - common) ".." ++ ts.drop common)

/-- `path.posix.basename` / `path.basename` on a POSIX backend: the last
non-empty `/`-separated segment, or `""` when there is none. -/
def basename (p : String) : String := (pathSegs p).getLastD ""

/-! ## Base64 (`Buffer.prototype.toString('base64')`) -/

/-- The base64 alphabet. -/
def base64Table : List Char :=
  "ABCDEFGHIJKLMNOPQRSTUVWXYZabcdefghijklmnopqrstuvwxyz0123456789+/".toList

/-- The base64 digit for a 6-bit value. -/
def b64Char (n : Nat) : Char := base64Table.getD n 'A'

/-- Standard base64 encoding of a byte list, with `=` padding, as produced by
`Buffer.prototype.toString('base64')`. -/
def base64Encode : List Nat → String
  | [] => ""
  | [a] =>
    String.mk [b64Char (a / 4), b64Char (a % 4 * 16)] ++ "=="
  | [a, b] =>
    String.mk [b64Char (a / 4), b64Char (a % 4 * 16 + b / 16), b64Char (b % 16 * 4)] ++ "="
  | a :: b :: c :: rest =>
    String.mk [b64Char (a / 4), b64Char (a % 4 * 16 + b / 16),
      b64Char (b % 16 * 4 + c / 64), b64Char (c % 64)] ++ base64Encode rest

/-! ## `encodeURIComponent` -/

/-- Characters `encodeURIComponent` leaves unescaped:
`A-Z a-z 0-9 - _ . ! ~ * ' ( )`. -/
def uriUnreserved (c : Char) : Bool :=
  c.isAlphanum || c == '-' || c == '_' || c == '.' || c == '!' || c == '~' ||
    c == '*' || c == Char.ofNat 39 || c == '(' || c == ')'

/-- An uppercase hexadecimal digit. -/
def hexDigit (n : Nat) : Char := "0123456789ABCDEF".toList.getD n '0'

/-- `%HH` percent-encoding of one byte. -/
def percentByte (b : Nat) : String :=
  String.mk ['%', hexDigit (b / 16), hexDigit (b % 16)]

/-- The UTF-8 bytes of a character. -/
def utf8Bytes (c : Char) : List Nat :=
  let n := c.toNat
  if n < 128 then [n]
  else if n < 2048 then [192 + n / 64, 128 + n % 64]
  else if n < 65536 then [224 + n / 4096, 128 + n / 64 % 64, 128 + n % 64]
  else [240 + n / 262144, 128 + n / 4096 % 64, 128 + n / 64 % 64, 128 + n % 64]

/-- JavaScript's `encodeURIComponent`. -/
def encodeURIComponent (s : String) : String :=
  String.join (s.toList.map fun c =>
    if uriUnreserved c then String.singleton c
    else String.join ((utf8Bytes c).map percentByte))

/-! ## Git interface data (subset of `azure-devops-node-api/interfaces/GitInterfaces`) -/

/-- Subset of `VersionControlChangeType`; the action only ever emits `add`,
but the enum has further members, so equality with `add` is informative. -/
inductive VersionControlChangeType where
  | none | add | edit | delete | rename
deriving DecidableEq, Repr

/-- `ItemContentType`. -/
inductive ItemContentType where
  | rawText | base64Encoded
deriving DecidableEq, Repr

/-- The `item` of a `GitChange` (only the `path` field is used). -/
structure GitItem where
  path : String
deriving DecidableEq, Repr

/-- The `newContent` of a `GitChange`. -/
structure GitNewContent where
  content : String
  contentType : ItemContentType
deriving DecidableEq, Repr

/-- A `GitChange` as constructed by `generateGitChanges`. -/
structure GitChange where
  changeType : VersionControlChangeType
  item : GitItem
  newContent : GitNewContent
deriving DecidableEq, Repr

/-- One entry of `serializeDirectoryContents`' result: a path and the file's
bytes.  `content` is optional to model an entry whose `content` field is
absent (`undefined`), which the spec discusses. -/
structure FileEntry where
  path : String
  content : Option (List Nat)
deriving DecidableEq, Repr

/-! ## `generateGitChanges` -/

/-- The `file.path` made relative: `path.isAbsolute(file.path) ?
path.relative(fileRoot, file.path) : file.path` (devopsPullRequest.ts:446). -/
def relativeEntryPath (cwd fileRoot p : String) : String :=
  if posixIsAbsolute p then pathRelative cwd fileRoot p else p

/-- The change object built for one entry in the `.map` callback of
`generateGitChanges` (devopsPullRequest.ts:444-460). -/
def mkChange (cwd fileRoot : String) (targetPath : Option String)
    (p : String) (bytes : List Nat) : GitChange :=
  { changeType := .add
    item := { path := posixJoin ["/", targetPath.getD "", relativeEntryPath cwd fileRoot p] }
    newContent := { content := base64Encode bytes, contentType := .base64Encoded } }

/-- The message of the `TypeError` thrown by
`file.content.toString('base64')` when `file.content` is `undefined`. -/
def contentTypeErrorMsg : String :=
  "TypeError: Cannot read properties of undefined (reading 'toString')"

/-- The `.map` stage of `generateGitChanges`: builds one change per entry and
throws at the first entry whose `content` field is absent. -/
def mapChanges (cwd fileRoot : String) (targetPath : Option String) :
    List FileEntry → Except String (List GitChange)
  | [] => .ok []
  | e :: rest =>
    match e.content with
    | Option.none => .error contentTypeErrorMsg
    | some bytes =>
      match mapChanges cwd fileRoot targetPath rest with
      | .error m => .error m
      | .ok cs => .ok (mkChange cwd fileRoot targetPath e.path bytes :: cs)

/-- `generateGitChanges` (devopsPullRequest.ts:438-462): map each directory
entry to an `add` change, then drop changes whose base64 content is the empty
string (`change.newContent && change.newContent.content` with `newContent`
always a fresh object, so only string falsiness matters). -/
def generateGitChanges (cwd : String) (directoryContents : List FileEntry)
    (fileRoot : String) (targetPath : Option String) :
    Except String (List GitChange) :=
  match mapChanges cwd fileRoot targetPath directoryContents with
  | .error m => .error m
  | .ok cs => .ok (cs.filter (fun change => !change.newContent.content.isEmpty))

/-- The per-entry effect of `generateGitChanges` on one directory entry:
`none` when the entry yields no change (absent content never reaches the
filter — see `mapChanges` — so this is only meaningful on successful runs). -/
def emitChange (cwd fileRoot : String) (targetPath : Option String)
    (e : FileEntry) : Option GitChange :=
  match e.content with
  | Option.none => Option.none
  | some bytes =>
    let c := mkChange cwd fileRoot targetPath e.path bytes
    if c.newContent.content.isEmpty then Option.none else some c

/-! ## Handler data model -/

/-- A credential resolved by `DefaultAzureDevOpsCredentialsProvider`:
its `type` (e.g. `"pat"`) and its token. -/
structure Credentials where
  type : String
  token : String
deriving DecidableEq, Repr

/-- The authentication handler chosen at devopsPullRequest.ts:220-223. -/
inductive AuthHandler where
  | pat (token : String)
  | bearer (token : String)
deriving DecidableEq, Repr

/-- `token || credentials?.type === 'pat' ?
getPersonalAccessTokenHandler(token ?? credentials!.token) :
getBearerHandler(credentials!.token)`.  Only meaningful after the
missing-credentials guard, so `credentials` may be read unconditionally in
the bearer branch. -/
def authHandlerFor (token : Option String) (credentials : Option Credentials) : AuthHandler :=
  if jsStr token ≠ "" ∨ (credentials.map (·.type)) = some "pat" then
    .pat (token.getD ((credentials.map (·.token)).getD ""))
  else
    .bearer ((credentials.map (·.token)).getD "")

/-- A `GitCommitRef` (only `commitId` is read). -/
structure GitCommitRef where
  commitId : Option String
deriving DecidableEq, Repr

/-- A `GitBranchStats` (only `commit` is read). -/
structure GitBranchStats where
  commit : Option GitCommitRef
deriving DecidableEq, Repr

/-- A `GitRepository` (only `id` and `defaultBranch` are read). -/
structure GitRepository where
  id : Option String
  defaultBranch : Option String
deriving DecidableEq, Repr

/-- A `GitRefUpdate`: the branch-creation update sets all three fields, the
push ref update omits `newObjectId`, and `oldObjectId` carries whatever
`getLatestCommit` returned (its `commitId` may itself be absent). -/
structure GitRefUpdate where
  name : String
  oldObjectId : Option String
  newObjectId : Option String
deriving DecidableEq, Repr

/-- The single commit entry of the push (`comment` plus `changes`). -/
structure GitCommitEntry where
  comment : String
  changes : List GitChange
deriving DecidableEq, Repr

/-- A `GitPush` as constructed at devopsPullRequest.ts:332-351. -/
structure GitPush where
  refUpdates : List GitRefUpdate
  commits : List GitCommitEntry
deriving DecidableEq, Repr

/-- A reviewer entry, `{ uniqueName: reviewer }`. -/
structure IdentityRef where
  uniqueName : String
deriving DecidableEq, Repr

/-- A pull-request label, `{ name: ... }`. -/
structure PrLabel where
  name : String
deriving DecidableEq, Repr

/-- A `GitPullRequest` restricted to the fields the action writes or reads.
`pullRequestId` is optional (absent on the constructed request, possibly
absent on a remote answer). -/
structure GitPullRequest where
  sourceRefName : String
  targetRefName : String
  title : String
  description : String
  isDraft : Option Bool
  reviewers : List IdentityRef
  labels : List PrLabel
  pullRequestId : Option Nat
deriving DecidableEq, Repr

/-- Subset of `PullRequestStatus`; the search uses `active`. -/
inductive PullRequestStatus where
  | notSet | active | abandoned | completed | all
deriving DecidableEq, Repr

/-- The search criteria passed to `getPullRequests`. -/
structure PullRequestSearchCriteria where
  sourceRefName : String
  targetRefName : String
  status : PullRequestStatus
deriving DecidableEq, Repr

/-- One remote git-client call, with its arguments, as issued by the handler.
The trace of these calls is the handler's observable remote behavior. -/
inductive RemoteCall where
  | getRepository (repo project : String)
  | getBranch (repo branch project : String)
  | updateRefs (refs : List GitRefUpdate) (repoId : Option String) (project : String)
  | createPush (push : GitPush) (repoId : Option String) (project : String)
  | getPullRequests (repoId : Option String) (criteria : PullRequestSearchCriteria) (project : String)
  | createPullRequest (pr : GitPullRequest) (repoId : Option String) (project : String)
deriving DecidableEq, Repr

/-- Whether a remote call is an `updateRefs` call. -/
def RemoteCall.isUpdateRefs : RemoteCall → Bool
  | .updateRefs _ _ _ => true
  | _ => false

/-- Whether a remote call is a `createPush` call. -/
def RemoteCall.isCreatePush : RemoteCall → Bool
  | .createPush _ _ _ => true
  | _ => false

/-- Whether a remote call is a `createPullRequest` call. -/
def RemoteCall.isCreatePullRequest : RemoteCall → Bool
  | .createPullRequest _ _ _ => true
  | _ => false

/-- An output emitted through `ctx.output`. -/
inductive Output where
  | pullRequestUrl (url : String)
  | pullRequestId (id : Nat)
deriving DecidableEq, Repr

/-- How a handler invocation can fail: `inputError` is Backstage's
`InputError` (user misconfiguration), `error` a generic `Error` thrown by the
handler's own code (a runtime `TypeError` surfaces the same way), and
`remote` a rejection propagated from the git client. -/
inductive HandlerError where
  | inputError (msg : String)
  | error (msg : String)
  | remote (msg : String)
deriving DecidableEq, Repr

instance {ε α : Type} [DecidableEq ε] [DecidableEq α] : DecidableEq (Except ε α) := fun a b =>
  match a, b with
  | .error e, .error e' =>
    if h : e = e' then isTrue (by rw [h]) else isFalse (by intro hc; cases hc; exact h rfl)
  | .ok v, .ok v' =>
    if h : v = v' then isTrue (by rw [h]) else isFalse (by intro hc; cases hc; exact h rfl)
  | .error _, .ok _ => isFalse (by intro hc; cases hc)
  | .ok _, .error _ => isFalse (by intro hc; cases hc)

/-- The observable result of one handler invocation: the ordered remote-call
trace, the outputs emitted, and the thrown-or-completed outcome. -/
structure RunResult where
  calls : List RemoteCall
  outputs : List Output
  result : Except HandlerError Unit
deriving DecidableEq, Repr

/-- The external collaborators, as resolvable behavior: each git operation
maps its arguments to a rejection (`Except.error`) or a resolved value.
`getRepository` and `getBranch` may also resolve to `none` (a falsy
response), which the source checks for explicitly. -/
structure Env where
  cwd : String
  credentials : Option Credentials
  getRepository : String → String → Except String (Option GitRepository)
  getBranch : String → String → String → Except String (Option GitBranchStats)
  updateRefs : List GitRefUpdate → Option String → String → Except String Unit
  createPush : GitPush → Option String → String → Except String Unit
  getPullRequests : Option String → PullRequestSearchCriteria → String → Except String (Option (List GitPullRequest))
  createPullRequest : GitPullRequest → Option String → String → Except String GitPullRequest
  serializeDirectoryContents : String → List FileEntry
  resolveSafeChildPath : String → String → String

/-- The action context: the dry-run flag and the workspace directory. -/
structure Ctx where
  isDryRun : Bool
  workspacePath : String
deriving DecidableEq, Repr

/-- The action's input, with the optionality of the input schema. -/
structure ActionInput where
  host : Option String
  organization : String
  project : String
  repo : String
  sourceBranchName : String
  targetBranchName : Option String
  title : String
  description : String
  draft : Option Bool
  sourcePath : Option String
  targetPath : Option String
  token : Option String
  reviewers : Option (List String)
  teamReviewers : Option (List String)
  commitMessage : Option String
  update : Option Bool
  createSourceBranch : Option Bool
deriving DecidableEq, Repr

/-! ## Handler embedding -/

/-- `refs/heads/<branch>`. -/
def refsHeads (b : String) : String := "refs/heads/" ++ b

/-- The all-zero old object id signalling a new ref. -/
def zeroObjectId : String := "0000000000000000000000000000000000000000"

/-- Replace the first occurrence of `pat` (non-empty) in a character list. -/
def replaceFirstChars (pat repl : List Char) : List Char → List Char
  | [] => []
  | c :: rest =>
    if pat.isPrefixOf (c :: rest) then repl ++ (c :: rest).drop pat.length
    else c :: replaceFirstChars pat repl rest

/-- JavaScript `String.prototype.replace` with a string pattern: replaces the
first occurrence only (an empty pattern matches at the start). -/
def replaceFirst (s pat repl : String) : String :=
  match pat.data with
  | [] => String.mk (repl.data ++ s.data)
  | _ => String.mk (replaceFirstChars pat.data repl.data s.data)

/-- The base URL, `https://${host}/${encodeURIComponent(organization)}` with
`host` defaulting to `dev.azure.com` (devopsPullRequest.ts:192,209). -/
def mkBaseUrl (i : ActionInput) : String :=
  "https://" ++ i.host.getD "dev.azure.com" ++ "/" ++ encodeURIComponent i.organization

/-- The guard `!credentials && !token` (devopsPullRequest.ts:214): no
resolved credentials and a JS-falsy token. -/
def missingCreds (env : Env) (i : ActionInput) : Bool :=
  env.credentials.isNone && (jsStr i.token == "")

/-- The `InputError` message for missing credentials. -/
def missingCredsMsg : String :=
  "No credentials provided for Azure DevOps. Please check your integrations config or provide a token."

/-- Modelled from the spec: `getAzureDevOpsPullRequestURL`
(`src/.../utils/azure-devops-utils.ts`) is imported by the action but its
implementation is not under `src/`; the spec defines it as
`<baseUrl>/<urlEncode(project)>/_git/<urlEncode(repo)>/pullrequest/<id>`,
matching the included unit tests. -/
def getAzureDevOpsPullRequestURL (baseUrl project repo : String) (id : Nat) : String :=
  baseUrl ++ "/" ++ encodeURIComponent project ++ "/_git/" ++ encodeURIComponent repo ++
    "/pullrequest/" ++ toString id

/-- The outputs of `performDryRun` (devopsPullRequest.ts:477-481): a mocked
URL built from the raw (unencoded) inputs, and the fixed id 123. -/
def dryRunOutputs (i : ActionInput) : List Output :=
  [ .pullRequestUrl ("https://mocked-url/" ++ i.organization ++ "/" ++ i.project ++ "/" ++
      i.repo ++ "/pullrequest/123"),
    .pullRequestId 123 ]

/-- A stage of the handler: its value-or-error outcome together with the
remote calls it issued, in order. -/
structure StageRes (α : Type) where
  res : Except HandlerError α
  calls : List RemoteCall
deriving Repr

/-- Fetching the repository (devopsPullRequest.ts:243-249): a falsy result is
a fatal generic error. -/
def fetchRepositoryStage (env : Env) (i : ActionInput) : StageRes GitRepository :=
  match env.getRepository i.repo i.project with
  | .error m => ⟨.error (.remote m), [.getRepository i.repo i.project]⟩
  | .ok Option.none =>
    ⟨.error (.error ("Repository " ++ i.repo ++ " not found in project " ++ i.project ++ ".")),
      [.getRepository i.repo i.project]⟩
  | .ok (some r) => ⟨.ok r, [.getRepository i.repo i.project]⟩

/-- Resolving the target branch name (devopsPullRequest.ts:252-266): a truthy
`targetBranchName` input wins; otherwise the repository's default branch with
the first `refs/heads/` stripped; a falsy default branch is fatal. -/
def resolveTargetBranchName (repository : GitRepository) (i : ActionInput) :
    Except HandlerError String :=
  if jsStr i.targetBranchName ≠ "" then .ok (jsStr i.targetBranchName)
  else if jsStr repository.defaultBranch = "" then
    .error (.error ("No target branch specified, and the repository " ++ i.repo ++
      " does not have a default branch."))
  else .ok (replaceFirst (jsStr repository.defaultBranch) "refs/heads/" "")

/-- `getLatestCommit` (devopsPullRequest.ts:268-274): fetch the branch; a
rejection propagates, a falsy branch or missing commit pointer is a generic
error, otherwise the commit's id (itself possibly absent) is returned. -/
def getLatestCommitStage (env : Env) (i : ActionInput) (branch : String) :
    StageRes (Option String) :=
  let call := RemoteCall.getBranch i.repo branch i.project
  match env.getBranch i.repo branch i.project with
  | .error m => ⟨.error (.remote m), [call]⟩
  | .ok Option.none =>
    ⟨.error (.error ("Branch " ++ branch ++ " not found in repository " ++ i.repo ++ ".")), [call]⟩
  | .ok (some b) =>
    match b.commit with
    | Option.none =>
      ⟨.error (.error ("Branch " ++ branch ++ " not found in repository " ++ i.repo ++ ".")), [call]⟩
    | some c => ⟨.ok c.commitId, [call]⟩

/-- The optional source-branch creation (devopsPullRequest.ts:276-315),
returning the final value of `sourceBranchDoesNotExist`: initialized to
`createSourceBranch`; when that is truthy the source branch is looked up —
a truthy answer clears the flag, a falsy resolution leaves it (no creation
either), and a rejection is taken as \"absent\": the branch is created from
the target branch's latest commit via a single ref update. -/
def ensureSourceBranchStage (env : Env) (i : ActionInput)
    (repository : GitRepository) (tgt : String) : StageRes Bool :=
  if i.createSourceBranch.getD false = false then ⟨.ok false, []⟩
  else
    let lookup := RemoteCall.getBranch i.repo i.sourceBranchName i.project
    match env.getBranch i.repo i.sourceBranchName i.project with
    | .ok (some _) => ⟨.ok false, [lookup]⟩
    | .ok Option.none => ⟨.ok true, [lookup]⟩
    | .error _ =>
      let latest := getLatestCommitStage env i tgt
      match latest.res with
      | .error e => ⟨.error e, lookup :: latest.calls⟩
      | .ok newId =>
        let ru : GitRefUpdate :=
          { name := refsHeads i.sourceBranchName
            oldObjectId := some zeroObjectId
            newObjectId := newId }
        match env.updateRefs [ru] repository.id i.project with
        | .error m =>
          ⟨.error (.remote m),
            lookup :: latest.calls ++ [.updateRefs [ru] repository.id i.project]⟩
        | .ok _ =>
          ⟨.ok true, lookup :: latest.calls ++ [.updateRefs [ru] repository.id i.project]⟩

/-- The file root (devopsPullRequest.ts:317-319): `sourcePath ?
resolveSafeChildPath(ctx.workspacePath, sourcePath) : ctx.workspacePath`. -/
def handlerFileRoot (env : Env) (ctx : Ctx) (i : ActionInput) : String :=
  if jsStr i.sourcePath ≠ "" then env.resolveSafeChildPath ctx.workspacePath (jsStr i.sourcePath)
  else ctx.workspacePath

/-- The auto-generated commit message (devopsPullRequest.ts:345-347): note it
lists the basenames of **all** serialized directory entries, not only those
that survive the empty-content filter. -/
def autoCommitMessage (directoryContents : List FileEntry) : String :=
  "Automated commit from Backstage scaffolder. Added files: " ++
    joinWith ", " (directoryContents.map (fun file => basename file.path))

/-- The commit comment: `commitMessage || <auto message>` (JS `||`, so an
empty-string `commitMessage` falls back to the auto message). -/
def commitComment (i : ActionInput) (directoryContents : List FileEntry) : String :=
  if jsStr i.commitMessage ≠ "" then jsStr i.commitMessage
  else autoCommitMessage directoryContents

/-- Reading the workspace, building the changes and the push, and executing
it (devopsPullRequest.ts:317-356).  Order is the source's: changes are built
first (a `TypeError` from an absent `content` surfaces here), then the push
object — whose `oldObjectId` awaits `getLatestCommit` of the target branch if
`sourceBranchDoesNotExist` and of the source branch otherwise — and only then
the empty-changes check, followed by `createPush`. -/
def pushStage (env : Env) (ctx : Ctx) (i : ActionInput)
    (repository : GitRepository) (tgt : String) (sourceBranchDoesNotExist : Bool) :
    StageRes Unit :=
  let fileRoot := handlerFileRoot env ctx i
  let directoryContents := env.serializeDirectoryContents fileRoot
  match generateGitChanges env.cwd directoryContents fileRoot i.targetPath with
  | .error m => ⟨.error (.error m), []⟩
  | .ok changes =>
    let latest :=
      if sourceBranchDoesNotExist then getLatestCommitStage env i tgt
      else getLatestCommitStage env i i.sourceBranchName
    match latest.res with
    | .error e => ⟨.error e, latest.calls⟩
    | .ok oldId =>
      let push : GitPush :=
        { refUpdates := [⟨refsHeads i.sourceBranchName, oldId, Option.none⟩]
          commits := [⟨commitComment i directoryContents, changes⟩] }
      if changes.isEmpty then
        ⟨.error (.error "No changes to push. The changes array is empty."), latest.calls⟩
      else
        match env.createPush push repository.id i.project with
        | .error m =>
          ⟨.error (.remote m), latest.calls ++ [.createPush push repository.id i.project]⟩
        | .ok _ => ⟨.ok (), latest.calls ++ [.createPush push repository.id i.project]⟩

/-- The pull request constructed at devopsPullRequest.ts:359-369. -/
def mkPullRequest (i : ActionInput) (tgt : String) : GitPullRequest :=
  { sourceRefName := refsHeads i.sourceBranchName
    targetRefName := refsHeads tgt
    title := i.title
    description := i.description
    isDraft := i.draft
    reviewers := (i.reviewers.getD []).map (fun reviewer => { uniqueName := reviewer })
    labels := [{ name := "devhub-generated" }]
    pullRequestId := Option.none }

/-- The search criteria for existing pull requests
(devopsPullRequest.ts:374-378). -/
def prCriteria (i : ActionInput) (tgt : String) : PullRequestSearchCriteria :=
  { sourceRefName := refsHeads i.sourceBranchName
    targetRefName := refsHeads tgt
    status := .active }

/-- The generic error thrown when a pull request comes back without a truthy
id (the source appends the JSON of the pull request; we keep the prefix). -/
def prNoIdMsg : String := "Pull request created without an ID: "

/-- The create-or-reuse stage (devopsPullRequest.ts:371-433): search active
pull requests on the branch pair; a non-empty answer reuses the first entry
(failing on a falsy id — `!pullRequestId`, so an id of 0 also fails),
otherwise a fresh pull request is created (same falsy-id check).  In both
branches the outputs are the PR URL and the numeric id. -/
def prStage (env : Env) (i : ActionInput) (url : String)
    (repository : GitRepository) (tgt : String) : StageRes (List Output) :=
  let criteria := prCriteria i tgt
  let lookup := RemoteCall.getPullRequests repository.id criteria i.project
  match env.getPullRequests repository.id criteria i.project with
  | .error m => ⟨.error (.remote m), [lookup]⟩
  | .ok v =>
    match v.getD [] with
    | pr :: _ =>
      if pr.pullRequestId.getD 0 = 0 then ⟨.error (.error prNoIdMsg), [lookup]⟩
      else
        ⟨.ok [.pullRequestUrl (getAzureDevOpsPullRequestURL url i.project i.repo
            (pr.pullRequestId.getD 0)),
          .pullRequestId (pr.pullRequestId.getD 0)], [lookup]⟩
    | [] =>
      let createCall := RemoteCall.createPullRequest (mkPullRequest i tgt) repository.id i.project
      match env.createPullRequest (mkPullRequest i tgt) repository.id i.project with
      | .error m => ⟨.error (.remote m), [lookup, createCall]⟩
      | .ok created =>
        if created.pullRequestId.getD 0 = 0 then
          ⟨.error (.error prNoIdMsg), [lookup, createCall]⟩
        else
          ⟨.ok [.pullRequestUrl (getAzureDevOpsPullRequestURL url i.project i.repo
              (created.pullRequestId.getD 0)),
            .pullRequestId (created.pullRequestId.getD 0)], [lookup, createCall]⟩

/-- The whole handler (devopsPullRequest.ts:190-434): credentials guard, then
the dry-run short-circuit, then repository fetch, target-branch resolution,
optional source-branch creation, change building and push, and finally the
pull-request create-or-reuse.  `teamReviewers` and `update` are destructured
away and never read. -/
def runHandler (env : Env) (ctx : Ctx) (i : ActionInput) : RunResult :=
  let url := mkBaseUrl i
  if missingCreds env i then
    ⟨[], [], .error (.inputError missingCredsMsg)⟩
  else if ctx.isDryRun then
    ⟨[], dryRunOutputs i, .ok ()⟩
  else
    let repoStage := fetchRepositoryStage env i
    match repoStage.res with
    | .error e => ⟨repoStage.calls, [], .error e⟩
    | .ok repository =>
      match resolveTargetBranchName repository i with
      | .error e => ⟨repoStage.calls, [], .error e⟩
      | .ok tgt =>
        let branch := ensureSourceBranchStage env i repository tgt
        match branch.res with
        | .error e => ⟨repoStage.calls ++ branch.calls, [], .error e⟩
        | .ok flag =>
          let pushed := pushStage env ctx i repository tgt flag
          match pushed.res with
          | .error e => ⟨repoStage.calls ++ branch.calls ++ pushed.calls, [], .error e⟩
          | .ok _ =>
            let pr := prStage env i url repository tgt
            match pr.res with
            | .error e =>
              ⟨repoStage.calls ++ branch.calls ++ pushed.calls ++ pr.calls, [], .error e⟩
            | .ok outs =>
              ⟨repoStage.calls ++ branch.calls ++ pushed.calls ++ pr.calls, outs, .ok ()⟩

/-! ## Concrete fixtures used by the witness theorems -/

/-- A non-dry-run context. -/
def ctx0 : Ctx := ⟨false, "/ws"⟩

/-- A dry-run context. -/
def ctxDry : Ctx := ⟨true, "/ws"⟩

/-- A baseline input: required fields set, `targetBranchName` given, a token
supplied, everything else absent. -/
def input0 : ActionInput :=
  { host := Option.none
    organization := "org"
    project := "proj"
    repo := "repo"
    sourceBranchName := "feat"
    targetBranchName := some "main"
    title := "T"
    description := "D"
    draft := Option.none
    sourcePath := Option.none
    targetPath := Option.none
    token := some "tok"
    reviewers := Option.none
    teamReviewers := Option.none
    commitMessage := Option.none
    update := Option.none
    createSourceBranch := Option.none }

/-- A repository with an id and a default branch. -/
def repoA : GitRepository := ⟨some "rid", some "refs/heads/main"⟩

/-- Branch stats whose latest commit id is derived from the branch name. -/
def branchFor (b : String) : GitBranchStats := ⟨some ⟨some ("c-" ++ b)⟩⟩

/-- A baseline environment in which every remote call succeeds, no pull
request exists yet, and the workspace holds one file `a.txt` (bytes "hi"). -/
def envA : Env :=
  { cwd := "/"
    credentials := some ⟨"pat", "secret"⟩
    getRepository := fun _ _ => .ok (some repoA)
    getBranch := fun _ b _ => .ok (some (branchFor b))
    updateRefs := fun _ _ _ => .ok ()
    createPush := fun _ _ _ => .ok ()
    getPullRequests := fun _ _ _ => .ok (some [])
    createPullRequest := fun pr _ _ => .ok { pr with pullRequestId := some 42 }
    serializeDirectoryContents := fun _ => [⟨"/ws/a.txt", some [104, 105]⟩]
    resolveSafeChildPath := fun a b => a ++ "/" ++ b }

/-! ## Lemmas about `generateGitChanges` -/

theorem mapChanges_ok_forall_some {cwd r : String} {tp : Option String}
    {l : List FileEntry} {cs : List GitChange}
    (h : mapChanges cwd r tp l = .ok cs) : ∀ e ∈ l, e.content ≠ Option.none := by
  induction l generalizing cs with
  | nil => intro e he; cases he
  | cons e0 rest ih =>
    intro e he
    simp only [mapChanges] at h
    cases hec : e0.content with
    | none => rw [hec] at h; cases h
    | some b =>
      rw [hec] at h
      cases hmc : mapChanges cwd r tp rest with
      | error m => rw [hmc] at h; cases h
      | ok cs' =>
        rw [hmc] at h
        cases he with
        | head => simp [hec]
        | tail _ hmem => exact ih hmc e hmem

theorem mapChanges_ok_length {cwd r : String} {tp : Option String}
    {l : List FileEntry} {cs : List GitChange}
    (h : mapChanges cwd r tp l = .ok cs) : cs.length = l.length := by
  induction l generalizing cs with
  | nil => cases h; rfl
  | cons e0 rest ih =>
    simp only [mapChanges] at h
    cases hec : e0.content with
    | none => rw [hec] at h; cases h
    | some b =>
      rw [hec] at h
      cases hmc : mapChanges cwd r tp rest with
      | error m => rw [hmc] at h; cases h
      | ok cs' =>
        rw [hmc] at h
        cases h
        simp [ih hmc]

theorem mapChanges_ok_mem {cwd r : String} {tp : Option String}
    {l : List FileEntry} {cs : List GitChange}
    (h : mapChanges cwd r tp l = .ok cs) :
    ∀ c ∈ cs, ∃ e ∈ l, ∃ b, e.content = some b ∧ c = mkChange cwd r tp e.path b := by
  induction l generalizing cs with
  | nil => cases h; intro c hc; cases hc
  | cons e0 rest ih =>
    simp only [mapChanges] at h
    cases hec : e0.content with
    | none => rw [hec] at h; cases h
    | some b =>
      rw [hec] at h
      cases hmc : mapChanges cwd r tp rest with
      | error m => rw [hmc] at h; cases h
      | ok cs' =>
        rw [hmc] at h
        cases h
        intro c hc
        cases hc with
        | head => exact ⟨e0, List.mem_cons_self _ _, b, hec, rfl⟩
        | tail _ hmem =>
          obtain ⟨e, he, b', hb', hmk⟩ := ih hmc c hmem
          exact ⟨e, List.mem_cons_of_mem _ he, b', hb', hmk⟩

theorem mapChanges_ok_filterMap {cwd r : String} {tp : Option String}
    {l : List FileEntry} {cs : List GitChange}
    (h : mapChanges cwd r tp l = .ok cs) :
    cs.filter (fun change => !change.newContent.content.isEmpty)
      = l.filterMap (emitChange cwd r tp) := by
  induction l generalizing cs with
  | nil => cases h; rfl
  | cons e0 rest ih =>
    simp only [mapChanges] at h
    cases hec : e0.content with
    | none => rw [hec] at h; cases h
    | some b =>
      rw [hec] at h
      cases hmc : mapChanges cwd r tp rest with
      | error m => rw [hmc] at h; cases h
      | ok cs' =>
        rw [hmc] at h
        cases h
        simp only [List.filterMap_cons, emitChange, hec, List.filter_cons]
        by_cases hE : (mkChange cwd r tp e0.path b).newContent.content.isEmpty
        · simp [hE, ih hmc]
        · simp only [Bool.not_eq_true] at hE
          simp [hE, ih hmc]

theorem generateGitChanges_ok_elim {cwd fileRoot : String} {tp : Option String}
    {l : List FileEntry} {cs : List GitChange}
    (h : generateGitChanges cwd l fileRoot tp = .ok cs) :
    ∃ cs', mapChanges cwd fileRoot tp l = .ok cs' ∧
      cs = cs'.filter (fun change => !change.newContent.content.isEmpty) := by
  unfold generateGitChanges at h
  cases hmc : mapChanges cwd fileRoot tp l with
  | error m => rw [hmc] at h; cases h
  | ok cs' => rw [hmc] at h; cases h; exact ⟨cs', rfl, rfl⟩

theorem emitChange_empty_content (cwd fileRoot : String) (tp : Option String)
    (e : FileEntry) (he : e.content = some []) :
    emitChange cwd fileRoot tp e = Option.none := by
  have hE : ("" : String).isEmpty = true := by decide
  simp [emitChange, he, mkChange, base64Encode, hE]

/-- C2: every change emitted by a successful `generateGitChanges` run has as
its remote path the POSIX join of `"/"`, the target path (or `""` when
absent), and the originating entry's path — made relative to the file root
first when it is absolute, and passed through unchanged when it is already
relative. -/
theorem c2_generateGitChanges_remote_path (cwd : String) (l : List FileEntry)
    (fileRoot : String) (tp : Option String) (cs : List GitChange)
    (h : generateGitChanges cwd l fileRoot tp = .ok cs) :
    ∀ c ∈ cs, ∃ e ∈ l,
      c.item.path = posixJoin ["/", tp.getD "",
        if posixIsAbsolute e.path then pathRelative cwd fileRoot e.path else e.path] := by
  obtain ⟨cs', hmc, rfl⟩ := generateGitChanges_ok_elim h
  intro c hc
  obtain ⟨e, he, b, _, hmk⟩ := mapChanges_ok_mem hmc c (List.mem_of_mem_filter hc)
  exact ⟨e, he, by rw [hmk]; rfl⟩

/-- The concrete directory-content list for the C2 witness: one absolute
path under the file root, one relative path. -/
def l2 : List FileEntry :=
  [⟨"/rootdir/a/b.txt", some [104]⟩, ⟨"rel.txt", some [105]⟩]

/-- The changes `generateGitChanges` produces for `l2`. -/
def cs2 : List GitChange :=
  [⟨.add, ⟨"/svc/a/b.txt"⟩, ⟨"aA==", .base64Encoded⟩⟩,
   ⟨.add, ⟨"/svc/rel.txt"⟩, ⟨"aQ==", .base64Encoded⟩⟩]

/-- Witness for C2 at a concrete input. -/
theorem c2_witness :
    generateGitChanges "/" l2 "/rootdir" (some "svc") = .ok cs2 ∧
    (∀ c ∈ cs2, ∃ e ∈ l2,
      c.item.path = posixJoin ["/", (some "svc").getD "",
        if posixIsAbsolute e.path then pathRelative "/" "/rootdir" e.path else e.path]) :=
  ⟨by decide, c2_generateGitChanges_remote_path "/" l2 "/rootdir" (some "svc") cs2 (by decide)⟩

/-- C3 (counterexample): an entry whose `content` field is absent makes
`generateGitChanges` throw (the `TypeError` from
`file.content.toString('base64')`) instead of being dropped, refuting the
claim that such an entry merely "produces no change in the output". -/
theorem c3_counterexample :
    generateGitChanges "/" [⟨"a.txt", Option.none⟩] "/ws" Option.none
      = .error contentTypeErrorMsg := rfl

/-- C3 (amended): on every SUCCESSFUL `generateGitChanges` run the output is
at most as long as the input, every emitted change is an `add` with
non-empty base64 content, the output is exactly the input filtered through
the per-entry `emitChange` (so an entry with empty encoded content produces
no change), and success forces every entry's `content` field to be present —
an absent `content` field instead makes the whole call fail. -/
theorem c3_generateGitChanges_filter_invariants (cwd : String) (l : List FileEntry)
    (fileRoot : String) (tp : Option String) (cs : List GitChange)
    (h : generateGitChanges cwd l fileRoot tp = .ok cs) :
    cs.length ≤ l.length ∧
    (∀ c ∈ cs, c.changeType = VersionControlChangeType.add ∧ c.newContent.content ≠ "") ∧
    cs = l.filterMap (emitChange cwd fileRoot tp) ∧
    (∀ e ∈ l, e.content ≠ Option.none) ∧
    (∀ e : FileEntry, e.content = some [] → emitChange cwd fileRoot tp e = Option.none) := by
  obtain ⟨cs', hmc, rfl⟩ := generateGitChanges_ok_elim h
  refine ⟨?_, ?_, ?_, mapChanges_ok_forall_some hmc, fun e he => emitChange_empty_content _ _ _ _ he⟩
  · calc (cs'.filter _).length ≤ cs'.length := List.length_filter_le _ _
      _ = l.length := mapChanges_ok_length hmc
  · intro c hc
    obtain ⟨e, _, b, _, hmk⟩ := mapChanges_ok_mem hmc c (List.mem_of_mem_filter hc)
    have hne : c.newContent.content.isEmpty = false := by
      have := List.of_mem_filter hc
      simpa using this
    refine ⟨by rw [hmk]; rfl, ?_⟩
    intro hcontra
    rw [hcontra] at hne
    simp [String.isEmpty] at hne
  · exact mapChanges_ok_filterMap hmc

/-! ## Stage-level lemmas -/

/-- Whether a handler error is Backstage's `InputError`. -/
def HandlerError.isInput : HandlerError → Bool
  | .inputError _ => true
  | _ => false

theorem fetchRepositoryStage_calls (env : Env) (i : ActionInput) :
    (fetchRepositoryStage env i).calls = [.getRepository i.repo i.project] := by
  unfold fetchRepositoryStage
  cases env.getRepository i.repo i.project with
  | error m => rfl
  | ok v => cases v <;> rfl

theorem getLatestCommitStage_calls (env : Env) (i : ActionInput) (b : String) :
    (getLatestCommitStage env i b).calls = [.getBranch i.repo b i.project] := by
  cases hgb : env.getBranch i.repo b i.project with
  | error m => simp [getLatestCommitStage, hgb]
  | ok v =>
    cases v with
    | none => simp [getLatestCommitStage, hgb]
    | some bs =>
      cases hbc : bs.commit with
      | none => simp [getLatestCommitStage, hgb, hbc]
      | some c => simp [getLatestCommitStage, hgb, hbc]

theorem fetchRepositoryStage_no_input (env : Env) (i : ActionInput) :
    ∀ e, (fetchRepositoryStage env i).res = .error e → e.isInput = false := by
  unfold fetchRepositoryStage
  cases env.getRepository i.repo i.project with
  | error m => intro e he; cases he; rfl
  | ok v =>
    cases v with
    | none => intro e he; cases he; rfl
    | some r => intro e he; cases he

theorem resolveTargetBranchName_no_input (repository : GitRepository) (i : ActionInput) :
    ∀ e, resolveTargetBranchName repository i = .error e → e.isInput = false := by
  unfold resolveTargetBranchName
  split
  · intro e he; cases he
  · split
    · intro e he; cases he; rfl
    · intro e he; cases he

theorem getLatestCommitStage_no_input (env : Env) (i : ActionInput) (b : String) :
    ∀ e, (getLatestCommitStage env i b).res = .error e → e.isInput = false := by
  intro e he
  cases hgb : env.getBranch i.repo b i.project with
  | error m =>
    simp [getLatestCommitStage, hgb] at he
    simp [← he, HandlerError.isInput]
  | ok v =>
    cases v with
    | none =>
      simp [getLatestCommitStage, hgb] at he
      simp [← he, HandlerError.isInput]
    | some bs =>
      cases hbc : bs.commit with
      | none =>
        simp [getLatestCommitStage, hgb, hbc] at he
        simp [← he, HandlerError.isInput]
      | some c => simp [getLatestCommitStage, hgb, hbc] at he

theorem ensureSourceBranchStage_calls_shape (env : Env) (i : ActionInput)
    (repository : GitRepository) (tgt : String) :
    ∀ c ∈ (ensureSourceBranchStage env i repository tgt).calls,
      c.isCreatePush = false ∧ c.isCreatePullRequest = false := by
  intro c hc
  by_cases hcs : i.createSourceBranch.getD false = false
  · simp [ensureSourceBranchStage, hcs] at hc
  · cases hgb : env.getBranch i.repo i.sourceBranchName i.project with
    | ok v =>
      cases v with
      | some b =>
        simp [ensureSourceBranchStage, hcs, hgb] at hc
        subst hc; exact ⟨rfl, rfl⟩
      | none =>
        simp [ensureSourceBranchStage, hcs, hgb] at hc
        subst hc; exact ⟨rfl, rfl⟩
    | error m =>
      cases hl : (getLatestCommitStage env i tgt).res with
      | error e =>
        simp [ensureSourceBranchStage, hcs, hgb, hl, getLatestCommitStage_calls] at hc
        rcases hc with rfl | rfl <;> exact ⟨rfl, rfl⟩
      | ok newId =>
        cases hur : env.updateRefs
            [{ name := refsHeads i.sourceBranchName, oldObjectId := some zeroObjectId,
               newObjectId := newId }] repository.id i.project with
        | error m2 =>
          simp [ensureSourceBranchStage, hcs, hgb, hl, hur, getLatestCommitStage_calls] at hc
          rcases hc with rfl | rfl | rfl <;> exact ⟨rfl, rfl⟩
        | ok u =>
          simp [ensureSourceBranchStage, hcs, hgb, hl, hur, getLatestCommitStage_calls] at hc
          rcases hc with rfl | rfl | rfl <;> exact ⟨rfl, rfl⟩

theorem pushStage_calls_shape (env : Env) (ctx : Ctx) (i : ActionInput)
    (repository : GitRepository) (tgt : String) (f : Bool) :
    ∀ c ∈ (pushStage env ctx i repository tgt f).calls,
      c.isUpdateRefs = false ∧ c.isCreatePullRequest = false := by
  intro c hc
  cases hgen : generateGitChanges env.cwd
      (env.serializeDirectoryContents (handlerFileRoot env ctx i))
      (handlerFileRoot env ctx i) i.targetPath with
  | error m => simp [pushStage, hgen] at hc
  | ok changes =>
    cases f with
    | true =>
      cases hl : (getLatestCommitStage env i tgt).res with
      | error e =>
        simp [pushStage, hgen, hl, getLatestCommitStage_calls] at hc
        subst hc; exact ⟨rfl, rfl⟩
      | ok oldId =>
        cases hemp : changes.isEmpty with
        | true =>
          simp [pushStage, hgen, hl, hemp, getLatestCommitStage_calls] at hc
          subst hc; exact ⟨rfl, rfl⟩
        | false =>
          cases hcp : env.createPush
              { refUpdates := [⟨refsHeads i.sourceBranchName, oldId, Option.none⟩],
                commits := [⟨commitComment i
                  (env.serializeDirectoryContents (handlerFileRoot env ctx i)), changes⟩] }
              repository.id i.project with
          | error m2 =>
            simp [pushStage, hgen, hl, hemp, hcp, getLatestCommitStage_calls] at hc
            rcases hc with rfl | rfl <;> exact ⟨rfl, rfl⟩
          | ok u =>
            simp [pushStage, hgen, hl, hemp, hcp, getLatestCommitStage_calls] at hc
            rcases hc with rfl | rfl <;> exact ⟨rfl, rfl⟩
    | false =>
      cases hl : (getLatestCommitStage env i i.sourceBranchName).res with
      | error e =>
        simp [pushStage, hgen, hl, getLatestCommitStage_calls] at hc
        subst hc; exact ⟨rfl, rfl⟩
      | ok oldId =>
        cases hemp : changes.isEmpty with
        | true =>
          simp [pushStage, hgen, hl, hemp, getLatestCommitStage_calls] at hc
          subst hc; exact ⟨rfl, rfl⟩
        | false =>
          cases hcp : env.createPush
              { refUpdates := [⟨refsHeads i.sourceBranchName, oldId, Option.none⟩],
                commits := [⟨commitComment i
                  (env.serializeDirectoryContents (handlerFileRoot env ctx i)), changes⟩] }
              repository.id i.project with
          | error m2 =>
            simp [pushStage, hgen, hl, hemp, hcp, getLatestCommitStage_calls] at hc
            rcases hc with rfl | rfl <;> exact ⟨rfl, rfl⟩
          | ok u =>
            simp [pushStage, hgen, hl, hemp, hcp, getLatestCommitStage_calls] at hc
            rcases hc with rfl | rfl <;> exact ⟨rfl, rfl⟩

theorem prStage_calls_shape (env : Env) (i : ActionInput) (url : String)
    (repository : GitRepository) (tgt : String) :
    ∀ c ∈ (prStage env i url repository tgt).calls,
      c.isUpdateRefs = false ∧ c.isCreatePush = false := by
  intro c hc
  cases hpr : env.getPullRequests repository.id (prCriteria i tgt) i.project with
  | error m =>
    simp [prStage, hpr] at hc
    subst hc; exact ⟨rfl, rfl⟩
  | ok v =>
    cases hv : v.getD [] with
    | cons pr rest =>
      by_cases hid : pr.pullRequestId.getD 0 = 0
      · simp [prStage, hpr, hv, hid] at hc
        subst hc; exact ⟨rfl, rfl⟩
      · simp [prStage, hpr, hv, hid] at hc
        subst hc; exact ⟨rfl, rfl⟩
    | nil =>
      cases hcp : env.createPullRequest (mkPullRequest i tgt) repository.id i.project with
      | error m2 =>
        simp [prStage, hpr, hv, hcp] at hc
        rcases hc with rfl | rfl <;> exact ⟨rfl, rfl⟩
      | ok created =>
        by_cases hid : created.pullRequestId.getD 0 = 0
        · simp [prStage, hpr, hv, hcp, hid] at hc
          rcases hc with rfl | rfl <;> exact ⟨rfl, rfl⟩
        · simp [prStage, hpr, hv, hcp, hid] at hc
          rcases hc with rfl | rfl <;> exact ⟨rfl, rfl⟩

theorem ensureSourceBranchStage_no_input (env : Env) (i : ActionInput)
    (repository : GitRepository) (tgt : String) :
    ∀ e, (ensureSourceBranchStage env i repository tgt).res = .error e → e.isInput = false := by
  intro e he
  by_cases hcs : i.createSourceBranch.getD false = false
  · simp [ensureSourceBranchStage, hcs] at he
  · cases hgb : env.getBranch i.repo i.sourceBranchName i.project with
    | ok v =>
      cases v with
      | some b => simp [ensureSourceBranchStage, hcs, hgb] at he
      | none => simp [ensureSourceBranchStage, hcs, hgb] at he
    | error m =>
      cases hl : (getLatestCommitStage env i tgt).res with
      | error e2 =>
        simp [ensureSourceBranchStage, hcs, hgb, hl] at he
        subst he
        exact getLatestCommitStage_no_input env i tgt e2 hl
      | ok newId =>
        cases hur : env.updateRefs
            [{ name := refsHeads i.sourceBranchName, oldObjectId := some zeroObjectId,
               newObjectId := newId }] repository.id i.project with
        | error m2 =>
          simp [ensureSourceBranchStage, hcs, hgb, hl, hur] at he
          simp [← he, HandlerError.isInput]
        | ok u => simp [ensureSourceBranchStage, hcs, hgb, hl, hur] at he

theorem pushStage_no_input (env : Env) (ctx : Ctx) (i : ActionInput)
    (repository : GitRepository) (tgt : String) (f : Bool) :
    ∀ e, (pushStage env ctx i repository tgt f).res = .error e → e.isInput = false := by
  intro e he
  cases hgen : generateGitChanges env.cwd
      (env.serializeDirectoryContents (handlerFileRoot env ctx i))
      (handlerFileRoot env ctx i) i.targetPath with
  | error m =>
    simp [pushStage, hgen] at he
    simp [← he, HandlerError.isInput]
  | ok changes =>
    cases f with
    | true =>
      cases hl : (getLatestCommitStage env i tgt).res with
      | error e2 =>
        simp [pushStage, hgen, hl] at he
        subst he
        exact getLatestCommitStage_no_input env i tgt e2 hl
      | ok oldId =>
        cases hemp : changes.isEmpty with
        | true =>
          simp [pushStage, hgen, hl, hemp] at he
          simp [← he, HandlerError.isInput]
        | false =>
          cases hcp : env.createPush
              { refUpdates := [⟨refsHeads i.sourceBranchName, oldId, Option.none⟩],
                commits := [⟨commitComment i
                  (env.serializeDirectoryContents (handlerFileRoot env ctx i)), changes⟩] }
              repository.id i.project with
          | error m2 =>
            simp [pushStage, hgen, hl, hemp, hcp] at he
            simp [← he, HandlerError.isInput]
          | ok u => simp [pushStage, hgen, hl, hemp, hcp] at he
    | false =>
      cases hl : (getLatestCommitStage env i i.sourceBranchName).res with
      | error e2 =>
        simp [pushStage, hgen, hl] at he
        subst he
        exact getLatestCommitStage_no_input env i i.sourceBranchName e2 hl
      | ok oldId =>
        cases hemp : changes.isEmpty with
        | true =>
          simp [pushStage, hgen, hl, hemp] at he
          simp [← he, HandlerError.isInput]
        | false =>
          cases hcp : env.createPush
              { refUpdates := [⟨refsHeads i.sourceBranchName, oldId, Option.none⟩],
                commits := [⟨commitComment i
                  (env.serializeDirectoryContents (handlerFileRoot env ctx i)), changes⟩] }
              repository.id i.project with
          | error m2 =>
            simp [pushStage, hgen, hl, hemp, hcp] at he
            simp [← he, HandlerError.isInput]
          | ok u => simp [pushStage, hgen, hl, hemp, hcp] at he

theorem prStage_no_input (env : Env) (i : ActionInput) (url : String)
    (repository : GitRepository) (tgt : String) :
    ∀ e, (prStage env i url repository tgt).res = .error e → e.isInput = false := by
  intro e he
  cases hpr : env.getPullRequests repository.id (prCriteria i tgt) i.project with
  | error m =>
    simp [prStage, hpr] at he
    simp [← he, HandlerError.isInput]
  | ok v =>
    cases hv : v.getD [] with
    | cons pr rest =>
      by_cases hid : pr.pullRequestId.getD 0 = 0
      · simp [prStage, hpr, hv, hid] at he
        simp [← he, HandlerError.isInput]
      · simp [prStage, hpr, hv, hid] at he
    | nil =>
      cases hcp : env.createPullRequest (mkPullRequest i tgt) repository.id i.project with
      | error m2 =>
        simp [prStage, hpr, hv, hcp] at he
        simp [← he, HandlerError.isInput]
      | ok created =>
        by_cases hid : created.pullRequestId.getD 0 = 0
        · simp [prStage, hpr, hv, hcp, hid] at he
          simp [← he, HandlerError.isInput]
        · simp [prStage, hpr, hv, hcp, hid] at he

/-! ## Handler-level lemmas and claims -/

theorem runHandler_no_input_of_not_missing (env : Env) (ctx : Ctx) (i : ActionInput)
    (hm : missingCreds env i = false) :
    ∀ m, (runHandler env ctx i).result ≠ .error (.inputError m) := by
  intro m h
  cases hdry : ctx.isDryRun with
  | true => simp [runHandler, hm, hdry] at h
  | false =>
    cases hrs : (fetchRepositoryStage env i).res with
    | error e =>
      simp [runHandler, hm, hdry, hrs] at h
      have hni := fetchRepositoryStage_no_input env i e hrs
      rw [h] at hni
      simp [HandlerError.isInput] at hni
    | ok repository =>
      cases htg : resolveTargetBranchName repository i with
      | error e =>
        simp [runHandler, hm, hdry, hrs, htg] at h
        have hni := resolveTargetBranchName_no_input repository i e htg
        rw [h] at hni
        simp [HandlerError.isInput] at hni
      | ok tgt =>
        cases hbr : (ensureSourceBranchStage env i repository tgt).res with
        | error e =>
          simp [runHandler, hm, hdry, hrs, htg, hbr] at h
          have hni := ensureSourceBranchStage_no_input env i repository tgt e hbr
          rw [h] at hni
          simp [HandlerError.isInput] at hni
        | ok flag =>
          cases hps : (pushStage env ctx i repository tgt flag).res with
          | error e =>
            simp [runHandler, hm, hdry, hrs, htg, hbr, hps] at h
            have hni := pushStage_no_input env ctx i repository tgt flag e hps
            rw [h] at hni
            simp [HandlerError.isInput] at hni
          | ok u =>
            cases hpr : (prStage env i (mkBaseUrl i) repository tgt).res with
            | error e =>
              simp [runHandler, hm, hdry, hrs, htg, hbr, hps, hpr] at h
              have hni := prStage_no_input env i (mkBaseUrl i) repository tgt e hpr
              rw [h] at hni
              simp [HandlerError.isInput] at hni
            | ok outs => simp [runHandler, hm, hdry, hrs, htg, hbr, hps, hpr] at h

/-- C5 (amended): the handler fails with the missing-credentials
`InputError` exactly when the credentials provider resolves nothing AND the
token input is JS-falsy (absent or the empty string); in every other case no
`InputError` is ever raised.  (The original claim said a *present* token
suffices to avoid the error; a present-but-empty token does not, see the
counterexample.) -/
theorem c5_missing_credentials_iff (env : Env) (ctx : Ctx) (i : ActionInput) (m : String) :
    (runHandler env ctx i).result = .error (.inputError m) ↔
      missingCreds env i = true ∧ m = missingCredsMsg := by
  constructor
  · intro h
    by_cases hm : missingCreds env i = true
    · refine ⟨hm, ?_⟩
      simp [runHandler, hm] at h
      exact h.symm
    · have hm' : missingCreds env i = false := by
        simpa using hm
      exact absurd h (runHandler_no_input_of_not_missing env ctx i hm' m)
  · rintro ⟨hm, rfl⟩
    simp [runHandler, hm]

/-- The environment for the C5/C10 concrete runs: no resolvable credentials. -/
def envNoCreds : Env := { envA with credentials := Option.none }

/-- The C5 counterexample input: a token input is present but empty. -/
def in5 : ActionInput := { input0 with token := some "" }

/-- C5 (counterexample): with no resolvable credentials and a PRESENT but
empty-string token input, the handler still raises the missing-credentials
`InputError` — refuting "when either a token or credentials are present it
does not raise this error". -/
theorem c5_counterexample :
    in5.token.isSome = true ∧
      runHandler envNoCreds ctx0 in5 = ⟨[], [], .error (.inputError missingCredsMsg)⟩ :=
  ⟨rfl, rfl⟩

/-- C6: for every invocation flagged as a dry run (that passes the
credentials guard), the handler makes no remote git call at all, emits
exactly the mocked URL — built from the raw, unencoded organization, project
and repo inputs — and the fixed id 123, and completes successfully. -/
theorem c6_dry_run_mocked_outputs (env : Env) (ctx : Ctx) (i : ActionInput)
    (hcred : missingCreds env i = false) (hdry : ctx.isDryRun = true) :
    runHandler env ctx i =
      ⟨[], [.pullRequestUrl ("https://mocked-url/" ++ i.organization ++ "/" ++ i.project ++
          "/" ++ i.repo ++ "/pullrequest/123"), .pullRequestId 123], .ok ()⟩ := by
  simp [runHandler, hcred, hdry, dryRunOutputs]

/-- Witness for C6 at a concrete dry-run invocation. -/
theorem c6_witness :
    runHandler envA ctxDry input0 =
      ⟨[], [.pullRequestUrl "https://mocked-url/org/proj/repo/pullrequest/123",
        .pullRequestId 123], .ok ()⟩ :=
  c6_dry_run_mocked_outputs envA ctxDry input0 rfl rfl

/-- C9: `teamReviewers` and `update` are accepted but inert — two invocations
whose inputs differ only in those two fields have identical remote-call
traces, outputs and outcome. -/
theorem c9_teamReviewers_update_inert (env : Env) (ctx : Ctx) (i : ActionInput)
    (t : Option (List String)) (u : Option Bool) :
    runHandler env ctx { i with teamReviewers := t, update := u } = runHandler env ctx i :=
  rfl

/-- C10: credential resolution precedes the dry-run check — a dry-run
invocation with no resolvable credentials and a JS-falsy token fails with
the missing-credentials `InputError` and emits no mocked outputs. -/
theorem c10_dry_run_still_requires_credentials (env : Env) (ctx : Ctx) (i : ActionInput)
    (hm : missingCreds env i = true) (hdry : ctx.isDryRun = true) :
    runHandler env ctx i = ⟨[], [], .error (.inputError missingCredsMsg)⟩ := by
  simp [runHandler, hm]

/-- The C10 concrete input: no token supplied at all. -/
def in10 : ActionInput := { input0 with token := Option.none }

/-- Witness for C10 at a concrete dry-run invocation without credentials. -/
theorem c10_witness :
    runHandler envNoCreds ctxDry in10 = ⟨[], [], .error (.inputError missingCredsMsg)⟩ :=
  c10_dry_run_still_requires_credentials envNoCreds ctxDry in10 rfl rfl

/-- C1: when the run reaches the pull-request stage and the active-PR search
on the exact `refs/heads/<source>` → `refs/heads/<target>` pair returns a
non-empty list, the handler never calls `createPullRequest`; it takes the
first match, fails when that match has no (truthy) identifier, and otherwise
reports exactly that pull request's URL and identifier as the two outputs.
Since the run is a pure function of the environment and never creates a
pull request in this situation, a second invocation against the same branch
pair and remote state reports the same identifier again. -/
theorem c1_existing_pr_reused (env : Env) (ctx : Ctx) (i : ActionInput)
    (repository : GitRepository) (tgt : String) (flag : Bool)
    (pr : GitPullRequest) (rest : List GitPullRequest)
    (hcred : missingCreds env i = false)
    (hdry : ctx.isDryRun = false)
    (hrepo : env.getRepository i.repo i.project = .ok (some repository))
    (htgt : resolveTargetBranchName repository i = .ok tgt)
    (hbr : (ensureSourceBranchStage env i repository tgt).res = .ok flag)
    (hpush : (pushStage env ctx i repository tgt flag).res = .ok ())
    (hprs : env.getPullRequests repository.id (prCriteria i tgt) i.project
      = .ok (some (pr :: rest))) :
    (∀ c ∈ (runHandler env ctx i).calls, c.isCreatePullRequest = false) ∧
    (pr.pullRequestId.getD 0 = 0 →
      (runHandler env ctx i).result = .error (.error prNoIdMsg)) ∧
    (∀ id : Nat, pr.pullRequestId = some id → id ≠ 0 →
      (runHandler env ctx i).outputs =
        [.pullRequestUrl (getAzureDevOpsPullRequestURL (mkBaseUrl i) i.project i.repo id),
         .pullRequestId id] ∧
      (runHandler env ctx i).result = .ok ()) := by
  have hrs : (fetchRepositoryStage env i).res = .ok repository := by
    simp [fetchRepositoryStage, hrepo]
  by_cases hid : pr.pullRequestId.getD 0 = 0
  · have hpr : prStage env i (mkBaseUrl i) repository tgt =
        ⟨.error (.error prNoIdMsg),
          [.getPullRequests repository.id (prCriteria i tgt) i.project]⟩ := by
      simp [prStage, hprs, hid]
    refine ⟨?_, ?_, ?_⟩
    · intro c hc
      simp [runHandler, hcred, hdry, hrs, htgt, hbr, hpush, hpr,
        fetchRepositoryStage_calls] at hc
      rcases hc with rfl | hc | hc | rfl
      · rfl
      · exact (ensureSourceBranchStage_calls_shape env i repository tgt c hc).2
      · exact (pushStage_calls_shape env ctx i repository tgt flag c hc).2
      · rfl
    · intro _
      simp [runHandler, hcred, hdry, hrs, htgt, hbr, hpush, hpr]
    · intro id hideq hne
      rw [hideq] at hid
      simp at hid
      exact absurd hid hne
  · have hpr : prStage env i (mkBaseUrl i) repository tgt =
        ⟨.ok [.pullRequestUrl (getAzureDevOpsPullRequestURL (mkBaseUrl i) i.project i.repo
            (pr.pullRequestId.getD 0)),
          .pullRequestId (pr.pullRequestId.getD 0)],
          [.getPullRequests repository.id (prCriteria i tgt) i.project]⟩ := by
      simp [prStage, hprs, hid]
    refine ⟨?_, ?_, ?_⟩
    · intro c hc
      simp [runHandler, hcred, hdry, hrs, htgt, hbr, hpush, hpr,
        fetchRepositoryStage_calls] at hc
      rcases hc with rfl | hc | hc | rfl
      · rfl
      · exact (ensureSourceBranchStage_calls_shape env i repository tgt c hc).2
      · exact (pushStage_calls_shape env ctx i repository tgt flag c hc).2
      · rfl
    · intro h0
      exact absurd h0 hid
    · intro id hideq hne
      constructor
      · simp [runHandler, hcred, hdry, hrs, htgt, hbr, hpush, hpr, hideq]
      · simp [runHandler, hcred, hdry, hrs, htgt, hbr, hpush, hpr]

/-- The existing active pull request returned by the C1 witness environment. -/
def prB : GitPullRequest :=
  ⟨"refs/heads/feat", "refs/heads/main", "T", "D", Option.none, [],
    [⟨"devhub-generated"⟩], some 7⟩

/-- The C1 witness environment: one matching active pull request (id 7). -/
def envB : Env := { envA with getPullRequests := fun _ _ _ => .ok (some [prB]) }

/-- Witness for C1 at a concrete invocation with an existing matching PR. -/
theorem c1_witness :
    (runHandler envB ctx0 input0).outputs =
      [.pullRequestUrl (getAzureDevOpsPullRequestURL (mkBaseUrl input0)
          input0.project input0.repo 7),
       .pullRequestId 7] ∧
    (runHandler envB ctx0 input0).result = .ok () :=
  (c1_existing_pr_reused envB ctx0 input0 repoA "main" false prB []
    rfl rfl rfl (by decide) (by decide) (by decide) rfl).2.2 7 rfl (by decide)

theorem runHandler_updateRefs_filter (env : Env) (ctx : Ctx) (i : ActionInput)
    (repository : GitRepository) (tgt : String)
    (hcred : missingCreds env i = false) (hdry : ctx.isDryRun = false)
    (hrepo : env.getRepository i.repo i.project = .ok (some repository))
    (htgt : resolveTargetBranchName repository i = .ok tgt) :
    (runHandler env ctx i).calls.filter RemoteCall.isUpdateRefs =
      (ensureSourceBranchStage env i repository tgt).calls.filter RemoteCall.isUpdateRefs := by
  have hrs : (fetchRepositoryStage env i).res = .ok repository := by
    simp [fetchRepositoryStage, hrepo]
  have hnil : ∀ l : List RemoteCall, (∀ c ∈ l, c.isUpdateRefs = false) →
      l.filter RemoteCall.isUpdateRefs = [] := by
    intro l hl
    induction l with
    | nil => rfl
    | cons a l ih =>
      rw [List.filter_cons]
      have ha := hl a (by simp)
      simp only [ha]
      simpa using ih (fun c hc => hl c (by simp [hc]))
  cases hbr : (ensureSourceBranchStage env i repository tgt).res with
  | error e =>
    simp [runHandler, hcred, hdry, hrs, htgt, hbr, fetchRepositoryStage_calls,
      List.filter_append, RemoteCall.isUpdateRefs]
  | ok flag =>
    cases hps : (pushStage env ctx i repository tgt flag).res with
    | error e =>
      simp [runHandler, hcred, hdry, hrs, htgt, hbr, hps, fetchRepositoryStage_calls,
        List.filter_append, RemoteCall.isUpdateRefs,
        hnil _ (fun c hc => (pushStage_calls_shape env ctx i repository tgt flag c hc).1)]
    | ok u =>
      cases hpr : (prStage env i (mkBaseUrl i) repository tgt).res with
      | error e =>
        simp [runHandler, hcred, hdry, hrs, htgt, hbr, hps, hpr, fetchRepositoryStage_calls,
          List.filter_append, RemoteCall.isUpdateRefs,
          hnil _ (fun c hc => (pushStage_calls_shape env ctx i repository tgt flag c hc).1),
          hnil _ (fun c hc => (prStage_calls_shape env i (mkBaseUrl i) repository tgt c hc).1)]
      | ok outs =>
        simp [runHandler, hcred, hdry, hrs, htgt, hbr, hps, hpr, fetchRepositoryStage_calls,
          List.filter_append, RemoteCall.isUpdateRefs,
          hnil _ (fun c hc => (pushStage_calls_shape env ctx i repository tgt flag c hc).1),
          hnil _ (fun c hc => (prStage_calls_shape env i (mkBaseUrl i) repository tgt c hc).1)]

/-- C7: with `createSourceBranch` set: when the source-branch lookup resolves
a (truthy) branch, the whole invocation issues no `updateRefs` call at all;
when the lookup rejects, the invocation issues exactly one `updateRefs` call,
for `refs/heads/<sourceBranchName>`, with the all-zero sentinel as
old-object-id and the target branch's latest commit id as new-object-id. -/
theorem c7_source_branch_creation (env : Env) (ctx : Ctx) (i : ActionInput)
    (repository : GitRepository) (tgt : String) (tb : GitBranchStats) (tc : GitCommitRef)
    (hcred : missingCreds env i = false) (hdry : ctx.isDryRun = false)
    (hrepo : env.getRepository i.repo i.project = .ok (some repository))
    (htgt : resolveTargetBranchName repository i = .ok tgt)
    (hcsb : i.createSourceBranch = some true) :
    (∀ b : GitBranchStats, env.getBranch i.repo i.sourceBranchName i.project = .ok (some b) →
      (runHandler env ctx i).calls.filter RemoteCall.isUpdateRefs = []) ∧
    (∀ m : String, env.getBranch i.repo i.sourceBranchName i.project = .error m →
      env.getBranch i.repo tgt i.project = .ok (some tb) → tb.commit = some tc →
      (runHandler env ctx i).calls.filter RemoteCall.isUpdateRefs =
        [.updateRefs [⟨refsHeads i.sourceBranchName, some zeroObjectId, tc.commitId⟩]
          repository.id i.project]) := by
  have hmain := runHandler_updateRefs_filter env ctx i repository tgt hcred hdry hrepo htgt
  constructor
  · intro b hfound
    rw [hmain]
    simp [ensureSourceBranchStage, hcsb, hfound, RemoteCall.isUpdateRefs]
  · intro m hmiss htb htc
    rw [hmain]
    have hlatest : getLatestCommitStage env i tgt =
        ⟨.ok tc.commitId, [.getBranch i.repo tgt i.project]⟩ := by
      simp [getLatestCommitStage, htb, htc]
    cases hur : env.updateRefs
        [⟨refsHeads i.sourceBranchName, some zeroObjectId, tc.commitId⟩]
        repository.id i.project with
    | error m2 =>
      simp [ensureSourceBranchStage, hcsb, hmiss, hlatest, hur, RemoteCall.isUpdateRefs,
        List.filter]
    | ok u =>
      simp [ensureSourceBranchStage, hcsb, hmiss, hlatest, hur, RemoteCall.isUpdateRefs,
        List.filter]

/-- The C7 witness environment: the source branch lookup rejects, the target
branch resolves. -/
def envC7 : Env :=
  { envA with getBranch := fun _ b _ =>
      if b = "feat" then .error "404" else .ok (some (branchFor b)) }

/-- The C7 witness input: `createSourceBranch` requested. -/
def in7 : ActionInput := { input0 with createSourceBranch := some true }

/-- Witness for C7 at a concrete invocation whose source branch is absent. -/
theorem c7_witness :
    (runHandler envC7 ctx0 in7).calls.filter RemoteCall.isUpdateRefs =
      [.updateRefs [⟨refsHeads in7.sourceBranchName, some zeroObjectId, some "c-main"⟩]
        repoA.id in7.project] :=
  (c7_source_branch_creation envC7 ctx0 in7 repoA "main" (branchFor "main") ⟨some "c-main"⟩
    rfl rfl rfl (by decide) rfl).2 "404" (by decide) (by decide) rfl

theorem runHandler_createPush_mem (env : Env) (ctx : Ctx) (i : ActionInput)
    (repository : GitRepository) (tgt : String) (flag : Bool)
    (hcred : missingCreds env i = false) (hdry : ctx.isDryRun = false)
    (hrepo : env.getRepository i.repo i.project = .ok (some repository))
    (htgt : resolveTargetBranchName repository i = .ok tgt)
    (hbr : (ensureSourceBranchStage env i repository tgt).res = .ok flag) :
    ∀ p rid proj, RemoteCall.createPush p rid proj ∈ (runHandler env ctx i).calls →
      RemoteCall.createPush p rid proj ∈ (pushStage env ctx i repository tgt flag).calls := by
  intro p rid proj hmem
  have hrs : (fetchRepositoryStage env i).res = .ok repository := by
    simp [fetchRepositoryStage, hrepo]
  cases hps : (pushStage env ctx i repository tgt flag).res with
  | error e =>
    simp [runHandler, hcred, hdry, hrs, htgt, hbr, hps, fetchRepositoryStage_calls] at hmem
    rcases hmem with hmem | hmem
    · have := (ensureSourceBranchStage_calls_shape env i repository tgt _ hmem).1
      simp [RemoteCall.isCreatePush] at this
    · exact hmem
  | ok u =>
    cases hpr : (prStage env i (mkBaseUrl i) repository tgt).res with
    | error e =>
      simp [runHandler, hcred, hdry, hrs, htgt, hbr, hps, hpr,
        fetchRepositoryStage_calls] at hmem
      rcases hmem with hmem | hmem | hmem
      · have := (ensureSourceBranchStage_calls_shape env i repository tgt _ hmem).1
        simp [RemoteCall.isCreatePush] at this
      · exact hmem
      · have := (prStage_calls_shape env i (mkBaseUrl i) repository tgt _ hmem).2
        simp [RemoteCall.isCreatePush] at this
    | ok outs =>
      simp [runHandler, hcred, hdry, hrs, htgt, hbr, hps, hpr,
        fetchRepositoryStage_calls] at hmem
      rcases hmem with hmem | hmem | hmem
      · have := (ensureSourceBranchStage_calls_shape env i repository tgt _ hmem).1
        simp [RemoteCall.isCreatePush] at this
      · exact hmem
      · have := (prStage_calls_shape env i (mkBaseUrl i) repository tgt _ hmem).2
        simp [RemoteCall.isCreatePush] at this

theorem pushStage_createPush_eq (env : Env) (ctx : Ctx) (i : ActionInput)
    (repository : GitRepository) (tgt : String) (flag : Bool)
    (changes : List GitChange) (oldId : Option String)
    (hgen : generateGitChanges env.cwd
      (env.serializeDirectoryContents (handlerFileRoot env ctx i))
      (handlerFileRoot env ctx i) i.targetPath = .ok changes)
    (hold : (getLatestCommitStage env i (if flag then tgt else i.sourceBranchName)).res
      = .ok oldId) :
    ∀ p rid proj,
      RemoteCall.createPush p rid proj ∈ (pushStage env ctx i repository tgt flag).calls →
      p = ⟨[⟨refsHeads i.sourceBranchName, oldId, Option.none⟩],
           [⟨commitComment i (env.serializeDirectoryContents (handlerFileRoot env ctx i)),
             changes⟩]⟩ ∧
      rid = repository.id ∧ proj = i.project := by
  intro p rid proj hmem
  cases flag with
  | true =>
    simp only [if_true] at hold
    cases hemp : changes.isEmpty with
    | true => simp [pushStage, hgen, hold, hemp, getLatestCommitStage_calls] at hmem
    | false =>
      cases hcp : env.createPush
          ⟨[⟨refsHeads i.sourceBranchName, oldId, Option.none⟩],
           [⟨commitComment i (env.serializeDirectoryContents (handlerFileRoot env ctx i)),
             changes⟩]⟩ repository.id i.project with
      | error m2 =>
        simp [pushStage, hgen, hold, hemp, hcp, getLatestCommitStage_calls] at hmem
        obtain ⟨h1, h2, h3⟩ := hmem
        exact ⟨h1, h2, h3⟩
      | ok u =>
        simp [pushStage, hgen, hold, hemp, hcp, getLatestCommitStage_calls] at hmem
        obtain ⟨h1, h2, h3⟩ := hmem
        exact ⟨h1, h2, h3⟩
  | false =>
    simp only [Bool.false_eq_true, if_false] at hold
    cases hemp : changes.isEmpty with
    | true => simp [pushStage, hgen, hold, hemp, getLatestCommitStage_calls] at hmem
    | false =>
      cases hcp : env.createPush
          ⟨[⟨refsHeads i.sourceBranchName, oldId, Option.none⟩],
           [⟨commitComment i (env.serializeDirectoryContents (handlerFileRoot env ctx i)),
             changes⟩]⟩ repository.id i.project with
      | error m2 =>
        simp [pushStage, hgen, hold, hemp, hcp, getLatestCommitStage_calls] at hmem
        obtain ⟨h1, h2, h3⟩ := hmem
        exact ⟨h1, h2, h3⟩
      | ok u =>
        simp [pushStage, hgen, hold, hemp, hcp, getLatestCommitStage_calls] at hmem
        obtain ⟨h1, h2, h3⟩ := hmem
        exact ⟨h1, h2, h3⟩

/-- C8 (amended): every `createPush` call issued by a non-dry-run invocation
carries exactly one ref update — targeting `refs/heads/<sourceBranchName>`,
with old-object-id the latest commit of the target branch when the
source-branch existence check did not find the branch (`flag`), and of the
source branch itself otherwise — and exactly one commit whose changes are
the filtered change list and whose comment is the caller-supplied commit
message when that is non-empty, else the auto-generated message listing the
base names of ALL serialized directory entries (including entries that were
filtered out of the change list; the original claim said "all changed
files", and also ignored that an empty-string `commitMessage` falls back to
the auto message — see the counterexample). -/
theorem c8_push_contents (env : Env) (ctx : Ctx) (i : ActionInput)
    (repository : GitRepository) (tgt : String) (flag : Bool)
    (changes : List GitChange) (oldId : Option String)
    (hcred : missingCreds env i = false) (hdry : ctx.isDryRun = false)
    (hrepo : env.getRepository i.repo i.project = .ok (some repository))
    (htgt : resolveTargetBranchName repository i = .ok tgt)
    (hbr : (ensureSourceBranchStage env i repository tgt).res = .ok flag)
    (hgen : generateGitChanges env.cwd
      (env.serializeDirectoryContents (handlerFileRoot env ctx i))
      (handlerFileRoot env ctx i) i.targetPath = .ok changes)
    (hold : (getLatestCommitStage env i (if flag then tgt else i.sourceBranchName)).res
      = .ok oldId) :
    ∀ p rid proj, RemoteCall.createPush p rid proj ∈ (runHandler env ctx i).calls →
      rid = repository.id ∧ proj = i.project ∧
      p.refUpdates = [⟨refsHeads i.sourceBranchName, oldId, Option.none⟩] ∧
      ∃ comment,
        p.commits = [⟨comment, changes⟩] ∧
        (jsStr i.commitMessage ≠ "" → comment = jsStr i.commitMessage) ∧
        (jsStr i.commitMessage = "" →
          comment = autoCommitMessage
            (env.serializeDirectoryContents (handlerFileRoot env ctx i))) := by
  intro p rid proj hmem
  have hmem' := runHandler_createPush_mem env ctx i repository tgt flag
    hcred hdry hrepo htgt hbr p rid proj hmem
  obtain ⟨hp, hrid, hproj⟩ := pushStage_createPush_eq env ctx i repository tgt flag
    changes oldId hgen hold p rid proj hmem'
  subst hp hrid hproj
  refine ⟨rfl, rfl, rfl,
    commitComment i (env.serializeDirectoryContents (handlerFileRoot env ctx i)), rfl, ?_, ?_⟩
  · intro hne
    simp only [commitComment]
    rw [if_pos hne]
  · intro heq
    simp only [commitComment]
    rw [if_neg (by simp [heq])]

/-- The single change produced by the baseline environment's workspace. -/
def changesA : List GitChange := [⟨.add, ⟨"/a.txt"⟩, ⟨"aGk=", .base64Encoded⟩⟩]

/-- Witness for C8 at the baseline concrete invocation. -/
theorem c8_witness :
    (some "rid" : Option String) = repoA.id ∧ "proj" = input0.project ∧
    (⟨[⟨"refs/heads/feat", some "c-feat", Option.none⟩],
      [⟨"Automated commit from Backstage scaffolder. Added files: a.txt", changesA⟩]⟩ :
        GitPush).refUpdates
      = [⟨refsHeads input0.sourceBranchName, some "c-feat", Option.none⟩] ∧
    ∃ comment,
      (⟨[⟨"refs/heads/feat", some "c-feat", Option.none⟩],
        [⟨"Automated commit from Backstage scaffolder. Added files: a.txt", changesA⟩]⟩ :
          GitPush).commits = [⟨comment, changesA⟩] ∧
      (jsStr input0.commitMessage ≠ "" → comment = jsStr input0.commitMessage) ∧
      (jsStr input0.commitMessage = "" →
        comment = autoCommitMessage
          (envA.serializeDirectoryContents (handlerFileRoot envA ctx0 input0))) :=
  c8_push_contents envA ctx0 input0 repoA "main" false changesA (some "c-feat")
    rfl rfl rfl (by decide) (by decide) (by decide) (by decide)
    ⟨[⟨"refs/heads/feat", some "c-feat", Option.none⟩],
      [⟨"Automated commit from Backstage scaffolder. Added files: a.txt", changesA⟩]⟩
    (some "rid") "proj" (by decide)

/-- The C8 counterexample environment: the workspace holds `a.txt` (1 byte)
and `empty.txt` (empty). -/
def env8 : Env :=
  { envA with serializeDirectoryContents := fun _ =>
      [⟨"/ws/a.txt", some [104]⟩, ⟨"/ws/empty.txt", some []⟩] }

/-- The C8 counterexample input: an (empty) commit message IS supplied. -/
def in8 : ActionInput := { input0 with commitMessage := some "" }

/-- C8 (counterexample): with a supplied (empty) commit message and a
workspace containing one empty file, the single push issued carries the
auto-generated comment — not the caller-supplied message — and that comment
lists `empty.txt`, which produced no change; both refute the original claim
("the caller-supplied commit message when given", "base names of all
changed files"). -/
theorem c8_counterexample :
    in8.commitMessage = some "" ∧
    (runHandler env8 ctx0 in8).calls.filter RemoteCall.isCreatePush =
      [.createPush
        ⟨[⟨"refs/heads/feat", some "c-feat", Option.none⟩],
         [⟨"Automated commit from Backstage scaffolder. Added files: a.txt, empty.txt",
           [⟨.add, ⟨"/a.txt"⟩, ⟨"aA==", .base64Encoded⟩⟩]⟩]⟩
        (some "rid") "proj"] :=
  ⟨rfl, by decide⟩

/-- C4 (amended): when the change list is empty after filtering, the handler
always fails and `createPush` is never invoked; the error is the generic
"No changes to push. The changes array is empty." PROVIDED the preceding
latest-commit lookup (issued for the push's old-object-id, which the source
awaits before the empty check) succeeds — when that lookup fails first, its
error is reported instead (see the counterexample). -/
theorem c4_empty_changes_no_push (env : Env) (ctx : Ctx) (i : ActionInput)
    (repository : GitRepository) (tgt : String) (flag : Bool)
    (hcred : missingCreds env i = false) (hdry : ctx.isDryRun = false)
    (hrepo : env.getRepository i.repo i.project = .ok (some repository))
    (htgt : resolveTargetBranchName repository i = .ok tgt)
    (hbr : (ensureSourceBranchStage env i repository tgt).res = .ok flag)
    (hempty : generateGitChanges env.cwd
      (env.serializeDirectoryContents (handlerFileRoot env ctx i))
      (handlerFileRoot env ctx i) i.targetPath = .ok []) :
    (∀ c ∈ (runHandler env ctx i).calls, c.isCreatePush = false) ∧
    (runHandler env ctx i).result ≠ .ok () ∧
    (∀ oldId : Option String,
      (getLatestCommitStage env i (if flag then tgt else i.sourceBranchName)).res
        = .ok oldId →
      (runHandler env ctx i).result =
        .error (.error "No changes to push. The changes array is empty.")) := by
  have hrs : (fetchRepositoryStage env i).res = .ok repository := by
    simp [fetchRepositoryStage, hrepo]
  cases flag with
  | true =>
    cases hl : (getLatestCommitStage env i tgt).res with
    | error e =>
      have hps : pushStage env ctx i repository tgt true =
          ⟨.error e, [.getBranch i.repo tgt i.project]⟩ := by
        simp [pushStage, hempty, hl, getLatestCommitStage_calls]
      refine ⟨?_, ?_, ?_⟩
      · intro c hc
        simp [runHandler, hcred, hdry, hrs, htgt, hbr, hps, fetchRepositoryStage_calls] at hc
        rcases hc with rfl | hc | rfl
        · rfl
        · exact (ensureSourceBranchStage_calls_shape env i repository tgt c hc).1
        · rfl
      · simp [runHandler, hcred, hdry, hrs, htgt, hbr, hps]
      · intro oldId hOld
        simp only [if_true] at hOld
        rw [hl] at hOld
        cases hOld
    | ok oldId0 =>
      have hps : pushStage env ctx i repository tgt true =
          ⟨.error (.error "No changes to push. The changes array is empty."),
            [.getBranch i.repo tgt i.project]⟩ := by
        simp [pushStage, hempty, hl, getLatestCommitStage_calls]
      refine ⟨?_, ?_, ?_⟩
      · intro c hc
        simp [runHandler, hcred, hdry, hrs, htgt, hbr, hps, fetchRepositoryStage_calls] at hc
        rcases hc with rfl | hc | rfl
        · rfl
        · exact (ensureSourceBranchStage_calls_shape env i repository tgt c hc).1
        · rfl
      · simp [runHandler, hcred, hdry, hrs, htgt, hbr, hps]
      · intro oldId hOld
        simp [runHandler, hcred, hdry, hrs, htgt, hbr, hps]
  | false =>
    cases hl : (getLatestCommitStage env i i.sourceBranchName).res with
    | error e =>
      have hps : pushStage env ctx i repository tgt false =
          ⟨.error e, [.getBranch i.repo i.sourceBranchName i.project]⟩ := by
        simp [pushStage, hempty, hl, getLatestCommitStage_calls]
      refine ⟨?_, ?_, ?_⟩
      · intro c hc
        simp [runHandler, hcred, hdry, hrs, htgt, hbr, hps, fetchRepositoryStage_calls] at hc
        rcases hc with rfl | hc | rfl
        · rfl
        · exact (ensureSourceBranchStage_calls_shape env i repository tgt c hc).1
        · rfl
      · simp [runHandler, hcred, hdry, hrs, htgt, hbr, hps]
      · intro oldId hOld
        simp only [Bool.false_eq_true, if_false] at hOld
        rw [hl] at hOld
        cases hOld
    | ok oldId0 =>
      have hps : pushStage env ctx i repository tgt false =
          ⟨.error (.error "No changes to push. The changes array is empty."),
            [.getBranch i.repo i.sourceBranchName i.project]⟩ := by
        simp [pushStage, hempty, hl, getLatestCommitStage_calls]
      refine ⟨?_, ?_, ?_⟩
      · intro c hc
        simp [runHandler, hcred, hdry, hrs, htgt, hbr, hps, fetchRepositoryStage_calls] at hc
        rcases hc with rfl | hc | rfl
        · rfl
        · exact (ensureSourceBranchStage_calls_shape env i repository tgt c hc).1
        · rfl
      · simp [runHandler, hcred, hdry, hrs, htgt, hbr, hps]
      · intro oldId hOld
        simp [runHandler, hcred, hdry, hrs, htgt, hbr, hps]

/-- The C4 witness environment: an empty workspace, everything else sound. -/
def env4 : Env := { envA with serializeDirectoryContents := fun _ => [] }

/-- Witness for C4 (amended) at a concrete invocation with no files. -/
theorem c4_witness :
    (∀ c ∈ (runHandler env4 ctx0 input0).calls, c.isCreatePush = false) ∧
    (runHandler env4 ctx0 input0).result ≠ .ok () ∧
    (∀ oldId : Option String,
      (getLatestCommitStage env4 input0
        (if false then "main" else input0.sourceBranchName)).res = .ok oldId →
      (runHandler env4 ctx0 input0).result =
        .error (.error "No changes to push. The changes array is empty.")) :=
  c4_empty_changes_no_push env4 ctx0 input0 repoA "main" false
    rfl rfl rfl (by decide) (by decide) (by decide)

/-- The C4 counterexample environment: an empty workspace AND a branch
lookup that rejects. -/
def env4b : Env :=
  { envA with
      serializeDirectoryContents := fun _ => []
      getBranch := fun _ _ _ => .error "boom" }

/-- C4 (counterexample): with an empty change list but a failing source
branch lookup, the handler fails with the propagated lookup rejection — not
with the "no changes to push" generic error the claim promises — because
the source computes the push's old-object-id before the empty check.
(`createPush` is still never invoked.) -/
theorem c4_counterexample :
    generateGitChanges env4b.cwd
      (env4b.serializeDirectoryContents (handlerFileRoot env4b ctx0 input0))
      (handlerFileRoot env4b ctx0 input0) input0.targetPath = .ok [] ∧
    (runHandler env4b ctx0 input0).result = .error (.remote "boom") ∧
    (runHandler env4b ctx0 input0).result ≠
      .error (.error "No changes to push. The changes array is empty.") ∧
    (runHandler env4b ctx0 input0).calls.filter RemoteCall.isCreatePush = [] :=
  ⟨rfl, by decide, by decide, by decide⟩

/-- The C3 witness input: one 1-byte file and one empty file. -/
def l3 : List FileEntry := [⟨"a.txt", some [104]⟩, ⟨"b.txt", some []⟩]

/-- The changes `generateGitChanges` produces for `l3` (the empty file is
filtered out). -/
def cs3 : List GitChange := [⟨.add, ⟨"/a.txt"⟩, ⟨"aA==", .base64Encoded⟩⟩]

/-- Witness for C3 (amended) at a concrete input. -/
theorem c3_witness :
    cs3.length ≤ l3.length ∧
    (∀ c ∈ cs3, c.changeType = VersionControlChangeType.add ∧ c.newContent.content ≠ "") ∧
    cs3 = l3.filterMap (emitChange "/" "/ws" Option.none) ∧
    (∀ e ∈ l3, e.content ≠ Option.none) ∧
    (∀ e : FileEntry, e.content = some [] → emitChange "/" "/ws" Option.none e = Option.none) :=
  c3_generateGitChanges_filter_invariants "/" l3 "/ws" Option.none cs3 (by decide)
